import Mathlib

/-!
Shallow embedding of the deduplication pipeline in `src/bedup/tracking.py`
(scanner `track_updated_files`, `Checkpointer`, `WindowedQuery`, and the
dedup funnel `dedup_tracked` / `dedup_tracked1`), together with theorems
settling the specification claims about it.

Machine integers of the source (sizes, generations, inode numbers) are
modelled as `Nat`; window bounds, which the source lets go to `-1`
(`window_start = window_end - 1`), are modelled as `Int`.
-/

namespace Bedup

/-- A persisted `Volume` row (`model.Volume`): the fields of the source object
that the tracked code reads. `last_tracked_size_cutoff` is nullable in the
schema, hence `Option Nat`. -/
structure Volume where
  id : Nat
  fs : Nat
  st_dev : Nat
  size_cutoff : Nat
  last_tracked_generation : Nat
  last_tracked_size_cutoff : Option Nat
deriving Repr, DecidableEq

/-- A persisted `Inode` row (`model.Inode`): owning volume id, inode number,
size, and the `has_updates` flag. -/
structure INode where
  vol : Nat
  ino : Nat
  size : Nat
  has_updates : Bool
deriving Repr, DecidableEq

/-! ## Scanner: `track_updated_files` (tracking.py lines 76-191) -/

/-- Lines 79-84: the effective lower generation bound.
`min_generation = vol.last_tracked_generation + 1` when
`vol.last_tracked_size_cutoff is not None and
vol.last_tracked_size_cutoff <= vol.size_cutoff`, else `0`. -/
def min_generation (vol : Volume) : Nat :=
  match vol.last_tracked_size_cutoff with
  | some c => if c ≤ vol.size_cutoff then vol.last_tracked_generation + 1 else 0
  | none => 0

/-- The watermark effect of `track_updated_files` on the volume row.
Lines 85-90: if `min_generation > top_generation` the function commits and
returns without touching the volume.  Otherwise the scan runs and lines
189-191 set `last_tracked_generation = top_generation` (the value read at
entry) and `last_tracked_size_cutoff = vol.size_cutoff`. -/
def track_updated_files_watermark (vol : Volume) (top_generation : Nat) : Volume :=
  if min_generation vol > top_generation then vol
  else { vol with
          last_tracked_generation := top_generation,
          last_tracked_size_cutoff := some vol.size_cutoff }

/-- One item returned by the tree search, as read in lines 132-158:
whether its search-header type is `BTRFS_INODE_ITEM_KEY`, the inode
generation, size and regular-file bit decoded from the payload, and the
objectid (inode number). -/
structure ScanItem where
  is_inode_item : Bool
  inode_gen : Nat
  size : Nat
  is_reg : Bool
  ino : Nat
deriving Repr, DecidableEq

/-- Result of `lookup_ino_path_one` for one item: an `IOError`, or the raw
path bytes. -/
inductive LookupResult
  | ioErr
  | ok (path : List Nat)
deriving Repr, DecidableEq

/-- Result of `path.decode(FS_ENCODING)`: a `ValueError`, or success. -/
inductive DecodeResult
  | decodeErr
  | ok
deriving Repr, DecidableEq

/-- Net effect of one scanned item on the Catalog session. `upserted` means
the `get_or_create` row exists in the session with `size` set and
`has_updates = true`; `expunged` means a freshly created row was removed
again (net no change); `deleted` means a pre-existing row was deleted. -/
inductive ScanItemEffect
  | filtered
  | expunged (ino : Nat)
  | deleted (ino : Nat)
  | upserted (ino : Nat) (size : Nat)
deriving Repr, DecidableEq

/-- The secondary generation filter, lines 149-155.  The Python condition
`vol.last_tracked_size_cutoff and size >= vol.last_tracked_size_cutoff`
uses truthiness: `None` and `0` are both falsy.  In the truthy branch the
item is kept when `inode_gen > vol.last_tracked_generation`; otherwise when
`inode_gen >= min_generation`. -/
def gen_filter_ok (vol : Volume) (min_gen : Nat) (it : ScanItem) : Bool :=
  if (match vol.last_tracked_size_cutoff with
      | some c => decide (c ≠ 0) && decide (c ≤ it.size)
      | none => false) then
    decide (vol.last_tracked_generation < it.inode_gen)
  else
    decide (min_gen ≤ it.inode_gen)

/-- Per-item body of the scan loop, lines 138-182, as its net session
effect.  Order of operations in the source: type filter, size filter,
generation filter, regular-file filter, then `get_or_create` plus
`inode.size = size; inode.has_updates = True` (the upsert), then the path
lookup (an `IOError` expunges a created row or deletes an existing one),
then the path decode.  A decode `ValueError` hits a bare `continue` (line
178): only the progress-display `tt.update` calls are skipped, and the
already-upserted row stays in the session. -/
def process_item (vol : Volume) (min_gen : Nat) (it : ScanItem)
    (existed : Bool) (lookup : LookupResult) (decode : DecodeResult) :
    ScanItemEffect :=
  if !it.is_inode_item then .filtered
  else if it.size < vol.size_cutoff then .filtered
  else if !(gen_filter_ok vol min_gen it) then .filtered
  else if !it.is_reg then .filtered
  else
    match lookup with
    | .ioErr => if existed then .deleted it.ino else .expunged it.ino
    | .ok _ =>
      match decode with
      | .decodeErr => .upserted it.ino it.size
      | .ok => .upserted it.ino it.size

/-- Whether the item's net effect leaves an inserted or updated row for
`(vol, ino)` in the session. -/
def row_touched : ScanItemEffect → Bool
  | .upserted _ _ => true
  | _ => false

/-! ## `dedup_tracked` prelude (tracking.py lines 324-335) -/

/-- Outcome of the `dedup_tracked` prelude: either the
`assert all(vol.fs == fs for vol in volset)` on line 327 fails (an
`AssertionError` is raised before the `WindowedQuery` is built and before
any share work), or the function proceeds with `fs = volset[0].fs`, the
volume id list, and `ofile_reserved = 7 + len(volset)` (line 331). -/
inductive DedupPrep
  | assertionFailed
  | proceed (fs : Nat) (vol_ids : List Nat) (ofile_reserved : Nat)
deriving Repr, DecidableEq

/-- Lines 324-331 of `dedup_tracked`.  `volset[0]` on the empty list raises
`IndexError`, modelled as `none`. -/
def dedup_tracked_prep : List Volume → Option DedupPrep
  | [] => none
  | v0 :: rest =>
    if (v0 :: rest).all (fun v => v.fs == v0.fs) then
      some (.proceed v0.fs ((v0 :: rest).map (fun v => v.id))
        (7 + (v0 :: rest).length))
    else
      some .assertionFailed

/-! ## Open-files budget (tracking.py lines 416-431) -/

/-- `ofile_req = 2 * inode_count + ofile_reserved`, line 417. -/
def ofile_req (inode_count ofile_reserved : Nat) : Nat :=
  2 * inode_count + ofile_reserved

/-- Decision taken by lines 418-431 before the open-read-write loop. -/
inductive OfileDecision
  | proceed (new_soft : Nat)
  | abandon
deriving Repr, DecidableEq

/-- Lines 418-431: if `ofile_req > ofile_soft` and `ofile_req <= ofile_hard`,
`setrlimit` raises the soft limit to `ofile_req`; if `ofile_req` exceeds the
hard limit too, the group is abandoned (`continue`); otherwise nothing
changes. -/
def ofile_check (inode_count ofile_reserved ofile_soft ofile_hard : Nat) :
    OfileDecision :=
  let req := ofile_req inode_count ofile_reserved
  if req > ofile_soft then
    if req ≤ ofile_hard then .proceed req
    else .abandon
  else .proceed ofile_soft

/-- The whole gate in front of the stage-4 open loop: which inodes enter the
open-read-write loop, the skip list after the gate, and the soft limit after
the gate.  On abandon, lines 428-430 append to `query.skipped` exactly the
group members with `has_updates` true and the `continue` skips the open
loop, so no inode of the group is opened. -/
def stage4_gate (inodes : List INode) (ofile_reserved ofile_soft ofile_hard : Nat)
    (skipped : List INode) : List INode × List INode × Nat :=
  match ofile_check inodes.length ofile_reserved ofile_soft ofile_hard with
  | .abandon => ([], skipped ++ inodes.filter (fun i => i.has_updates), ofile_soft)
  | .proceed s => (inodes, skipped, s)

/-! ## Stage 5: hashing and identity recheck (tracking.py lines 480-510) -/

/-- One opened read-write descriptor entering the hashing loop, with
everything the loop reads about it: the Catalog record it was opened for
(`ino`, the owning volume's `st_dev` and `size_cutoff`), the `fstat`
results (`st_ino`, `st_dev`), the byte count `afile.tell()` reports after
the full read (`bytes_read`), whether `ImmutableFDs` reported the
descriptor as in write use, and the digest the hash yields; `fd` is the
file descriptor number. -/
structure FileDesc where
  fd : Nat
  ino : Nat
  vol : Nat
  vol_st_dev : Nat
  vol_size_cutoff : Nat
  st_ino : Nat
  st_dev : Nat
  bytes_read : Nat
  in_write_use : Bool
  digest : Nat
deriving Repr, DecidableEq

/-- What the hashing loop does with one descriptor: append the inode to
`query.skipped` (re-flag), delete the Catalog row, or append the file to
`by_hash[digest]`. -/
inductive Stage5Outcome
  | skip
  | delete
  | keep
deriving Repr, DecidableEq

/-- Lines 480-510, per descriptor, in source order: a descriptor in
`immutability.fds_in_write_use` is skipped; after hashing, `fstat` must
still report the recorded inode number and the volume's device number, else
skip; the bytes read must equal the recorded `size`, else delete when the
new size is below the volume's cutoff and skip otherwise; only then is the
file appended to `by_hash[digest]`. -/
def stage5_outcome (size : Nat) (d : FileDesc) : Stage5Outcome :=
  if d.in_write_use then .skip
  else if d.st_ino ≠ d.ino then .skip
  else if d.st_dev ≠ d.vol_st_dev then .skip
  else if d.bytes_read ≠ size then
    (if d.bytes_read < d.vol_size_cutoff then .delete else .skip)
  else .keep

/-- The descriptors that reach `by_hash` (the digest partition input). -/
def stage5_kept (size : Nat) (files : List FileDesc) : List FileDesc :=
  files.filter (fun d => stage5_outcome size d == .keep)

/-- First-occurrence deduplication, matching the key order in which a
`defaultdict` acquires its keys. -/
def dedupFirst : List Nat → List Nat
  | [] => []
  | x :: xs => x :: (dedupFirst xs).filter (fun y => y ≠ x)

/-- `by_hash`: the kept descriptors partitioned by digest, each partition in
append order. -/
def by_hash_groups (size : Nat) (files : List FileDesc) :
    List (Nat × List FileDesc) :=
  (dedupFirst ((stage5_kept size files).map (fun d => d.digest))).map
    (fun h => (h, (stage5_kept size files).filter (fun d => d.digest == h)))

/-! ## Stage 6: byte comparison, clone, DedupEvent (tracking.py lines 512-548) -/

/-- What `clone_data` reported for a destination that survived the byte
comparison: `cloned` (returned true, extents replaced) or `alreadyShared`
(returned false, extents were already shared). -/
inductive DestResult
  | cloned
  | alreadyShared
deriving Repr, DecidableEq

/-- Result of the per-fileset loop of lines 522-548: the destinations
processed with their clone outcome, whether the `assert False` on line 530
fired (`AssertionError`: the byte comparison disagreed with the matching
digests), and the DedupEvent participant list when one was appended and
committed. -/
structure Stage6Run where
  processed : List (FileDesc × DestResult)
  fatal : Bool
  event : Option (List FileDesc)
deriving Repr, DecidableEq

/-- The destination loop, lines 523-538.  `bytesEq d` is what
`cmp_files sfile dfile` returns for destination `d`, `cloneOk d` what
`clone_data(dest, src, check_first=True)` returns.  On a failed comparison
the source notifies and the `assert False` raises, aborting everything: no
later destination is compared or cloned (the `continue` after the assert is
dead code). -/
def stage6_dests (bytesEq cloneOk : FileDesc → Bool) :
    List FileDesc → List (FileDesc × DestResult) × Bool
  | [] => ([], false)
  | d :: ds =>
    if !bytesEq d then ([], true)
    else
      let r := if cloneOk d then DestResult.cloned else DestResult.alreadyShared
      let rest := stage6_dests bytesEq cloneOk ds
      ((d, r) :: rest.1, rest.2)

/-- Lines 512-548 for one digest partition `sfile :: dfiles`: run the
destination loop; if it aborted, the `AssertionError` propagates before the
event code runs; otherwise lines 539-548 append and commit a DedupEvent
whose participating inodes are the source plus the destinations whose
`clone_data` returned true, exactly when that successful list is
non-empty. -/
def stage6_fileset (bytesEq cloneOk : FileDesc → Bool) (sfile : FileDesc)
    (dfiles : List FileDesc) : Stage6Run :=
  let run := stage6_dests bytesEq cloneOk dfiles
  if run.2 then ⟨run.1, true, none⟩
  else
    let succ := ((run.1.filter (fun p => p.2 == DestResult.cloned)).map
      (fun p => p.1))
    if succ.isEmpty then ⟨run.1, false, none⟩
    else ⟨run.1, false, some (sfile :: succ)⟩

/-- All DedupEvent participant lists produced for one mini-hash group's
digest partitions (the `for fileset in by_hash.itervalues()` loop; filesets
with fewer than two members are dropped on line 513). -/
def stage6_events (bytesEq cloneOk : FileDesc → Bool) (size : Nat)
    (files : List FileDesc) : List (List FileDesc) :=
  (by_hash_groups size files).filterMap (fun p =>
    match p.2 with
    | [] => none
    | [_] => none
    | sfile :: dfiles => stage6_fileset bytesEq cloneOk sfile dfiles |>.event)

/-! ## `WindowedQuery` (tracking.py lines 226-321) -/

/-- The WHERE range test of `WindowedQuery.clear_updates` as the source
executes it.  Line 312 writes the Python chained comparison
`window_start >= self.unfiltered.c.size >= window_end`, which Python
evaluates as `(window_start >= size) and (size >= window_end)`.  The first
comparison does not produce a boolean: `size` is a SQLAlchemy column, so it
produces an SQL expression object, and the `and` takes that object's truth
value instead of comparing sizes, discarding the left bound.  The condition
that reaches the UPDATE is therefore only `size >= window_end`. -/
def clear_updates_code_pred (window_start window_end size : Int) : Bool :=
  decide (window_end ≤ size)

/-- Modelled from the spec, for comparison with `clear_updates_code_pred`:
the intended range test of §4.4 step 5 and the design notes, clearing
exactly the inclusive size range `[window_end, window_start]`. -/
def clear_updates_spec_pred (window_start window_end size : Int) : Bool :=
  decide (window_end ≤ size) && decide (size ≤ window_start)

/-- `WindowedQuery.clear_updates` (lines 307-321): one UPDATE setting
`has_updates = false` on every selected inode passing the range test, then
re-flagging every inode on the skip list with `has_updates = true` (the
skip list itself is emptied afterwards, which the loop models by passing a
fresh list to the next window).  `sel` is `filt_crit`, membership of the
inode's volume in the selected volume set; `skipped` holds the `(vol, ino)`
identities of the ORM objects on the skip list. -/
def clear_updates (sel : Nat → Bool) (skipped : List (Nat × Nat))
    (window_start window_end : Int) (cat : List INode) : List INode :=
  (cat.map (fun i =>
    if sel i.vol && clear_updates_code_pred window_start window_end (i.size : Int)
    then { i with has_updates := false }
    else i)).map (fun i =>
    if skipped.contains (i.vol, i.ino) then { i with has_updates := true } else i)

/-- Insertion into a strictly descending duplicate-free list: building block
for the order and distinctness that `GROUP BY size ... ORDER BY size DESC`
gives the windowed query's size column. -/
def insertDesc (s : Nat) : List Nat → List Nat
  | [] => [s]
  | t :: ts =>
    if t < s then s :: t :: ts
    else if s = t then t :: ts
    else t :: insertDesc s ts

/-- The distinct members of `l` in strictly descending order. -/
def sortDescDedup (l : List Nat) : List Nat := l.foldr insertDesc []

/-- The rows of the `filtered` alias (line 238): the inodes passing
`filt_crit`, i.e. whose volume is in the selected set. -/
def selInodes (sel : Nat → Bool) (cat : List INode) : List INode :=
  cat.filter (fun i => sel i.vol)

/-- The HAVING clause of the grouped select (lines 244-253): a size group is
delivered when more than one selected inode has that size and the maximum
of their `has_updates` flags is positive (at least one is flagged). -/
def size_eligible (sel : Nat → Bool) (cat : List INode) (s : Nat) : Bool :=
  decide (1 < ((selInodes sel cat).filter (fun i => i.size == s)).length)
    && ((selInodes sel cat).filter (fun i => i.size == s)).any
        (fun i => i.has_updates)

/-- The size column of `selectable.order_by(-size)` (line 273): the
distinct eligible sizes, strictly descending. -/
def eligSizes (sel : Nat → Bool) (cat : List INode) : List Nat :=
  (sortDescDedup ((selInodes sel cat).map (fun i => i.size))).filter
    (size_eligible sel cat)

/-- One window query (lines 282-285): the eligible size groups with
`size <= window_start`, in descending order, limited to `window_size`
rows. -/
def windowQuery (sel : Nat → Bool) (cat : List INode) (window_start : Int)
    (window_size : Nat) : List Nat :=
  ((eligSizes sel cat).filter
    (fun s : Nat => decide ((s : Int) ≤ window_start))).take window_size

/-- Ascending insertion by inode number: the `Inode.ino` part of the
`order_by(-Inode.size, Inode.ino)` on line 294. -/
def insertByIno (i : INode) : List INode → List INode
  | [] => [i]
  | j :: js => if i.ino ≤ j.ino then i :: j :: js else j :: insertByIno i js

/-- The inodes fetched for one window size (lines 292-294): the selected
inodes of that size, ordered by inode number ascending. -/
def groupFor (sel : Nat → Bool) (cat : List INode) (s : Nat) : List INode :=
  ((selInodes sel cat).filter (fun i => i.size == s)).foldr insertByIno []

/-- The `Commonality1(size, inode_count, inodes)` triples yielded for one
window (lines 295-298): `groupby` yields one triple per size that actually
occurs in the fetched size-descending inode list. -/
def windowYield (sel : Nat → Bool) (cat : List INode) (q : List Nat) :
    List (Nat × Nat × List INode) :=
  (q.filter (fun s => !(groupFor sel cat s).isEmpty)).map
    (fun s => (s, (groupFor sel cat s).length, groupFor sel cat s))

/-- `li[-1].size` for the non-empty window result `s0 :: srest`. -/
def lastSize (s0 : Nat) : List Nat → Nat
  | [] => s0
  | s1 :: rest => lastSize s1 rest

/-- The `while True:` loop of `WindowedQuery.__iter__` (lines 281-300),
collecting every `Commonality1` triple yielded during the pass.
`consumer` chooses, per window, which yielded inodes the DedupPipeline
appends to the skip list before the window's `clear_updates` runs (the
back-channel of §Design Notes).  An empty query result runs
`clear_updates(window_start, 0)` and returns (lines 286-288); otherwise
`window_start` is re-bound to `li[0].size`, the groups are yielded,
`clear_updates(window_start, window_end)` runs and the loop continues with
`window_start = window_end - 1` (lines 289-300).  `fuel` bounds the number
of windows; the source loop needs no such bound because `window_start`
strictly decreases. -/
def passLoop (sel : Nat → Bool) (window_size : Nat)
    (consumer : List (Nat × Nat × List INode) → List (Nat × Nat)) :
    Nat → List INode → Int → List (Nat × Nat × List INode)
  | 0, _, _ => []
  | fuel + 1, cat, window_start =>
    match windowQuery sel cat window_start window_size with
    | [] => []
    | s0 :: srest =>
      let window_end := lastSize s0 srest
      let groups := windowYield sel cat (s0 :: srest)
      let cat' := clear_updates sel (consumer groups)
        (s0 : Int) (window_end : Int) cat
      groups ++ passLoop sel window_size consumer fuel cat'
        ((window_end : Int) - 1)

/-- Observable events of one `__iter__` pass, in program order. -/
inductive IterEvent
  | pragmaSynchronousNormal
  | pragmaWalAutocheckpointOff
  | yieldGroup (size : Nat)
  | clearUpd (window_start window_end : Int)
  | checkpointerClose
  | pragmaSynchronousFull
deriving Repr, DecidableEq

/-- Event trace of the `while True:` loop (lines 281-300).  When a window
query comes back empty the loop runs `self.clear_updates(window_start, 0)`
and returns (lines 286-288).  The two statements after the loop —
`self.checkpointer.close()` on line 302 and `PRAGMA synchronous=FULL` on
line 305 — stand after a `while True:` whose only exit is that `return`,
so no execution of the generator reaches them and the corresponding events
are never emitted. -/
def iterLoopTrace (sel : Nat → Bool) (window_size : Nat)
    (consumer : List (Nat × Nat × List INode) → List (Nat × Nat)) :
    Nat → List INode → Int → List IterEvent
  | 0, _, _ => []
  | fuel + 1, cat, window_start =>
    match windowQuery sel cat window_start window_size with
    | [] => [.clearUpd window_start 0]
    | s0 :: srest =>
      let window_end := lastSize s0 srest
      let groups := windowYield sel cat (s0 :: srest)
      let cat' := clear_updates sel (consumer groups)
        (s0 : Int) (window_end : Int) cat
      (groups.map (fun c => IterEvent.yieldGroup c.1))
        ++ [.clearUpd (s0 : Int) (window_end : Int)]
        ++ iterLoopTrace sel window_size consumer fuel cat'
            ((window_end : Int) - 1)

/-- The full trace of one `__iter__` pass: `PRAGMA synchronous=NORMAL` and
`PRAGMA wal_autocheckpoint=0` (lines 263-265), then the window loop. -/
def iterTrace (sel : Nat → Bool) (window_size : Nat)
    (consumer : List (Nat × Nat × List INode) → List (Nat × Nat))
    (fuel : Nat) (cat : List INode) (window_start : Int) : List IterEvent :=
  .pragmaSynchronousNormal :: .pragmaWalAutocheckpointOff ::
    iterLoopTrace sel window_size consumer fuel cat window_start

end Bedup

namespace Bedup

/-! ## Theorems for claims C6, C7, C10, C2 -/

/-- C6: for every `scan(volume)`, the lower generation bound is
`last_tracked_generation + 1` exactly when `last_tracked_size_cutoff` is set
and at most the current `size_cutoff` (else `0`); a lower bound above the
volume's top generation makes the scan a no-op on both watermark fields; and
otherwise the scan sets `last_tracked_generation` to the top generation read
at entry and `last_tracked_size_cutoff` to the current cutoff. -/
theorem c6_scan_watermark (vol : Volume) (top : Nat) :
    (min_generation vol =
      match vol.last_tracked_size_cutoff with
      | some c => if c ≤ vol.size_cutoff then vol.last_tracked_generation + 1 else 0
      | none => 0)
    ∧ (min_generation vol > top →
        track_updated_files_watermark vol top = vol)
    ∧ (min_generation vol ≤ top →
        (track_updated_files_watermark vol top).last_tracked_generation = top
        ∧ (track_updated_files_watermark vol top).last_tracked_size_cutoff
            = some vol.size_cutoff) := by
  refine ⟨rfl, fun h => ?_, fun h => ?_⟩
  · simp [track_updated_files_watermark, h]
  · have h' : ¬ min_generation vol > top := by omega
    simp [track_updated_files_watermark, h']

theorem c6_scan_watermark_witness :
    (track_updated_files_watermark ⟨1, 1, 0, 8192, 5, some 8192⟩ 9).last_tracked_generation
      = 9 :=
  ((c6_scan_watermark ⟨1, 1, 0, 8192, 5, some 8192⟩ 9).2.2 (by decide)).1

/-- C7 counterexample: a concrete scanned item that passes every filter,
whose path lookup succeeds but whose decode fails with `ValueError`.  The
claim says no Inode row for `(vol, ino)` is inserted or updated as a result
of that item; in the code the upsert (lines 159-162) happens before the
decode (line 176), and the `continue` on `ValueError` does not undo it, so
the row is inserted/updated nevertheless. -/
theorem c7_decode_error_counterexample :
    row_touched (process_item ⟨1, 1, 0, 4096, 0, none⟩ 0
      ⟨true, 3, 8192, true, 257⟩ false (.ok [0x80]) .decodeErr) = true := by
  decide

/-- C7 amended: when an item passes the type, size, generation and
regular-file filters, its path lookup succeeds, and the decode fails, the
scanner continues to the next item but the Inode row for `(vol, ino)` has
already been inserted or updated (size set, `has_updates := true`) and
remains in the session; only the progress-display update is skipped. -/
theorem c7_decode_error_row_remains (vol : Volume) (min_gen : Nat)
    (it : ScanItem) (existed : Bool) (path : List Nat)
    (h1 : it.is_inode_item = true) (h2 : ¬ it.size < vol.size_cutoff)
    (h3 : gen_filter_ok vol min_gen it = true) (h4 : it.is_reg = true) :
    process_item vol min_gen it existed (.ok path) .decodeErr
      = .upserted it.ino it.size := by
  simp [process_item, h1, h2, h3, h4]

theorem c7_decode_error_row_remains_witness :
    process_item ⟨1, 1, 0, 4096, 0, none⟩ 0 ⟨true, 3, 8192, true, 257⟩ false
      (.ok [0x80]) .decodeErr = .upserted 257 8192 :=
  c7_decode_error_row_remains ⟨1, 1, 0, 4096, 0, none⟩ 0
    ⟨true, 3, 8192, true, 257⟩ false [0x80] (by decide) (by decide)
    (by decide) (by decide)

/-- C10: `dedup_tracked` asserts all volumes of its (non-empty) volset share
the first volume's filesystem.  With two different filesystems present the
assertion fails (an `AssertionError`, before any windowed query or share
work, which only the `proceed` outcome carries); when all volumes share the
filesystem the assertion branch is unreachable and the prelude proceeds. -/
theorem c10_same_fs_assertion (v0 : Volume) (rest : List Volume) :
    ((∃ v ∈ v0 :: rest, v.fs ≠ v0.fs) →
      dedup_tracked_prep (v0 :: rest) = some .assertionFailed)
    ∧ ((∀ v ∈ v0 :: rest, v.fs = v0.fs) →
      dedup_tracked_prep (v0 :: rest) =
        some (.proceed v0.fs ((v0 :: rest).map (fun v => v.id))
          (7 + (v0 :: rest).length))) := by
  constructor
  · rintro ⟨v, hv, hne⟩
    have : ¬ (v0 :: rest).all (fun v => v.fs == v0.fs) := by
      simp only [List.all_eq_true, beq_iff_eq]
      intro hall
      exact hne (hall v hv)
    simp [dedup_tracked_prep, this]
  · intro hall
    have : (v0 :: rest).all (fun v => v.fs == v0.fs) := by
      simp only [List.all_eq_true, beq_iff_eq]
      exact hall
    simp [dedup_tracked_prep, this]

theorem c10_same_fs_assertion_witness :
    dedup_tracked_prep [⟨1, 1, 0, 0, 0, none⟩, ⟨2, 2, 0, 0, 0, none⟩]
      = some .assertionFailed :=
  (c10_same_fs_assertion ⟨1, 1, 0, 0, 0, none⟩ [⟨2, 2, 0, 0, 0, none⟩]).1
    ⟨⟨2, 2, 0, 0, 0, none⟩, by decide, by decide⟩

/-- C2: for a candidate group of `n` inodes about to be opened read-write,
`ofile_req = 2 * n + (7 + number_of_volumes)`; when it exceeds the soft
limit but not the hard one the soft limit is raised to `ofile_req`; when it
exceeds the hard limit the group is abandoned wholesale: no inode enters
the open-read-write loop, and exactly the group members with
`has_updates = true` are appended to the skip list, so every flagged
candidate remains flagged for the next pass. -/
theorem c2_ofile_budget (inodes : List INode) (volset_len soft hard : Nat)
    (skipped : List INode) (hsh : soft ≤ hard) :
    (ofile_req inodes.length (7 + volset_len)
        = 2 * inodes.length + (7 + volset_len))
    ∧ (soft < ofile_req inodes.length (7 + volset_len) →
        ofile_req inodes.length (7 + volset_len) ≤ hard →
        stage4_gate inodes (7 + volset_len) soft hard skipped
          = (inodes, skipped, ofile_req inodes.length (7 + volset_len)))
    ∧ (hard < ofile_req inodes.length (7 + volset_len) →
        stage4_gate inodes (7 + volset_len) soft hard skipped
          = ([], skipped ++ inodes.filter (fun i => i.has_updates), soft)) := by
  refine ⟨rfl, fun h1 h2 => ?_, fun h => ?_⟩
  · simp only [stage4_gate, ofile_check]
    have h1' : ofile_req inodes.length (7 + volset_len) > soft := h1
    simp [h1', h2]
  · -- `getrlimit` always reports soft ≤ hard, so a request above the hard
    -- limit is also above the soft one and the abandon branch runs.
    have hs : ofile_req inodes.length (7 + volset_len) > soft := by omega
    have h2 : ¬ ofile_req inodes.length (7 + volset_len) ≤ hard := by omega
    simp only [stage4_gate, ofile_check]
    simp [hs, h2]

theorem c2_ofile_budget_witness :
    stage4_gate
      [⟨1, 10, 4096, true⟩, ⟨1, 11, 4096, false⟩] (7 + 1) 3 5
      [] = ([], [⟨1, 10, 4096, true⟩], 3) :=
  (c2_ofile_budget [⟨1, 10, 4096, true⟩, ⟨1, 11, 4096, false⟩] 1 3 5 []
    (by decide)).2.2 (by decide)
/-! ## Helper lemmas for stages 5 and 6 -/

lemma stage6_dests_nil (bytesEq cloneOk : FileDesc → Bool) :
    stage6_dests bytesEq cloneOk [] = ([], false) := rfl

lemma stage6_dests_cons_pos (bytesEq cloneOk : FileDesc → Bool) (d : FileDesc)
    (ds : List FileDesc) (hb : bytesEq d = true) :
    stage6_dests bytesEq cloneOk (d :: ds)
      = ((d, if cloneOk d then DestResult.cloned else DestResult.alreadyShared)
          :: (stage6_dests bytesEq cloneOk ds).1,
         (stage6_dests bytesEq cloneOk ds).2) := by
  simp [stage6_dests, hb]

lemma stage6_dests_cons_neg (bytesEq cloneOk : FileDesc → Bool) (d : FileDesc)
    (ds : List FileDesc) (hb : bytesEq d = false) :
    stage6_dests bytesEq cloneOk (d :: ds) = ([], true) := by
  simp [stage6_dests, hb]

lemma stage6_dests_fail (bytesEq cloneOk : FileDesc → Bool) :
    ∀ ds : List FileDesc, (∃ d ∈ ds, bytesEq d = false) →
      (stage6_dests bytesEq cloneOk ds).2 = true
      ∧ ((stage6_dests bytesEq cloneOk ds).1.map (fun p => p.1)
          = ds.takeWhile bytesEq) := by
  intro ds
  induction ds with
  | nil => rintro ⟨d, hd, -⟩; cases hd
  | cons d ds ih =>
    rintro ⟨e, he, hef⟩
    by_cases hb : bytesEq d
    · have hin : ∃ x ∈ ds, bytesEq x = false := by
        rcases List.mem_cons.mp he with rfl | h
        · exact absurd hb (by simp [hef])
        · exact ⟨e, h, hef⟩
      have hih := ih hin
      rw [stage6_dests_cons_pos bytesEq cloneOk d ds hb]
      refine ⟨hih.1, ?_⟩
      simp only [List.map_cons]
      rw [hih.2]
      simp [List.takeWhile_cons, hb]
    · simp only [Bool.not_eq_true] at hb
      rw [stage6_dests_cons_neg bytesEq cloneOk d ds hb]
      refine ⟨rfl, ?_⟩
      simp [List.takeWhile_cons, hb]

lemma stage6_dests_allpass (bytesEq cloneOk : FileDesc → Bool) :
    ∀ ds : List FileDesc, (∀ d ∈ ds, bytesEq d = true) →
      stage6_dests bytesEq cloneOk ds
        = (ds.map (fun d =>
            (d, if cloneOk d then DestResult.cloned else DestResult.alreadyShared)),
           false) := by
  intro ds
  induction ds with
  | nil => intro _; rfl
  | cons d ds ih =>
    intro h
    have hd : bytesEq d = true := h d (List.mem_cons_self d ds)
    have hrest := ih (fun x hx => h x (List.mem_cons_of_mem d hx))
    rw [stage6_dests_cons_pos bytesEq cloneOk d ds hd, hrest]
    rfl

lemma cloned_filter_map (cloneOk : FileDesc → Bool) :
    ∀ ds : List FileDesc,
      (((ds.map (fun d =>
          (d, if cloneOk d then DestResult.cloned else DestResult.alreadyShared))).filter
          (fun p => p.2 == DestResult.cloned)).map (fun p => p.1))
        = ds.filter (fun d => cloneOk d) := by
  intro ds
  induction ds with
  | nil => rfl
  | cons d ds ih =>
    by_cases hc : cloneOk d
    · simp only [List.map_cons, hc, if_true, List.filter_cons]
      simp [ih, hc, (by decide : (DestResult.cloned == DestResult.cloned) = true)]
    · simp only [List.map_cons, hc, List.filter_cons]
      simp [ih, hc,
        (by decide : (DestResult.alreadyShared == DestResult.cloned) = false)]

lemma stage6_dests_fst_mem (bytesEq cloneOk : FileDesc → Bool) :
    ∀ ds : List FileDesc, ∀ p ∈ (stage6_dests bytesEq cloneOk ds).1, p.1 ∈ ds := by
  intro ds
  induction ds with
  | nil => intro p hp; cases hp
  | cons d ds ih =>
    intro p hp
    by_cases hb : bytesEq d
    · rw [stage6_dests_cons_pos bytesEq cloneOk d ds hb] at hp
      have hp' : p ∈ (d, if cloneOk d then DestResult.cloned
          else DestResult.alreadyShared) :: (stage6_dests bytesEq cloneOk ds).1 := hp
      rcases List.mem_cons.mp hp' with rfl | h
      · exact List.mem_cons_self d ds
      · exact List.mem_cons_of_mem d (ih p h)
    · simp only [Bool.not_eq_true] at hb
      rw [stage6_dests_cons_neg bytesEq cloneOk d ds hb] at hp
      cases hp

lemma stage6_fileset_fail (bytesEq cloneOk : FileDesc → Bool) (sfile : FileDesc)
    (dfiles : List FileDesc) (hex : ∃ d ∈ dfiles, bytesEq d = false) :
    stage6_fileset bytesEq cloneOk sfile dfiles
      = ⟨(stage6_dests bytesEq cloneOk dfiles).1, true, none⟩ := by
  simp [stage6_fileset, (stage6_dests_fail bytesEq cloneOk dfiles hex).1]

lemma stage6_fileset_allpass (bytesEq cloneOk : FileDesc → Bool) (sfile : FileDesc)
    (dfiles : List FileDesc) (hall : ∀ d ∈ dfiles, bytesEq d = true) :
    stage6_fileset bytesEq cloneOk sfile dfiles
      = if (dfiles.filter (fun d => cloneOk d)).isEmpty then
          ⟨dfiles.map (fun d =>
            (d, if cloneOk d then DestResult.cloned else DestResult.alreadyShared)),
           false, none⟩
        else
          ⟨dfiles.map (fun d =>
            (d, if cloneOk d then DestResult.cloned else DestResult.alreadyShared)),
           false, some (sfile :: dfiles.filter (fun d => cloneOk d))⟩ := by
  by_cases hne : (dfiles.filter (fun d => cloneOk d)).isEmpty
  · simp only [stage6_fileset, stage6_dests_allpass bytesEq cloneOk dfiles hall,
      cloned_filter_map]
    simp [hne]
  · simp only [stage6_fileset, stage6_dests_allpass bytesEq cloneOk dfiles hall,
      cloned_filter_map]
    simp [hne]

lemma not_all_bytesEq (bytesEq : FileDesc → Bool) (dfiles : List FileDesc)
    (hall : ¬ ∀ d ∈ dfiles, bytesEq d = true) :
    ∃ d ∈ dfiles, bytesEq d = false := by
  push_neg at hall
  rcases hall with ⟨d, hdm, hdb⟩
  exact ⟨d, hdm, by simpa using hdb⟩

lemma stage6_event_subset (bytesEq cloneOk : FileDesc → Bool)
    (sfile : FileDesc) (dfiles : List FileDesc) (l : List FileDesc)
    (h : (stage6_fileset bytesEq cloneOk sfile dfiles).event = some l) :
    ∀ x ∈ l, x ∈ sfile :: dfiles := by
  intro x hx
  by_cases hall : ∀ d ∈ dfiles, bytesEq d = true
  · rw [stage6_fileset_allpass bytesEq cloneOk sfile dfiles hall] at h
    by_cases hne : (dfiles.filter (fun d => cloneOk d)).isEmpty
    · rw [if_pos hne] at h
      exact Option.noConfusion h
    · rw [if_neg hne] at h
      have h' : some (sfile :: dfiles.filter (fun d => cloneOk d)) = some l := h
      have hl : l = sfile :: dfiles.filter (fun d => cloneOk d) :=
        (Option.some.inj h').symm
      subst hl
      rcases List.mem_cons.mp hx with rfl | hx'
      · exact List.mem_cons_self _ _
      · exact List.mem_cons_of_mem _ (List.filter_subset' dfiles hx')
  · rw [stage6_fileset_fail bytesEq cloneOk sfile dfiles
      (not_all_bytesEq bytesEq dfiles hall)] at h
    exact Option.noConfusion h

lemma stage6_events_subset_kept (bytesEq cloneOk : FileDesc → Bool)
    (size : Nat) (files : List FileDesc) :
    ∀ ev ∈ stage6_events bytesEq cloneOk size files, ∀ x ∈ ev,
      x ∈ stage5_kept size files := by
  intro ev hev x hx
  rcases List.mem_filterMap.mp hev with ⟨p, hp, hsome⟩
  rcases List.mem_map.mp hp with ⟨h, -, rfl⟩
  have hsome' : (match (stage5_kept size files).filter (fun d => d.digest == h) with
      | [] => (none : Option (List FileDesc))
      | [_] => none
      | sfile :: dfiles => (stage6_fileset bytesEq cloneOk sfile dfiles).event)
        = some ev := hsome
  cases hlist : (stage5_kept size files).filter (fun d => d.digest == h) with
  | nil =>
    rw [hlist] at hsome'
    exact Option.noConfusion hsome'
  | cons sfile dfiles =>
    rw [hlist] at hsome'
    cases dfiles with
    | nil => exact Option.noConfusion hsome'
    | cons d2 rest =>
      have hev' : (stage6_fileset bytesEq cloneOk sfile (d2 :: rest)).event
          = some ev := hsome'
      have hsub := stage6_event_subset bytesEq cloneOk sfile (d2 :: rest) ev hev' x hx
      have hxf : x ∈ (stage5_kept size files).filter (fun d => d.digest == h) := by
        rw [hlist]; exact hsub
      exact (List.mem_filter.mp hxf).1

/-! ## Theorems for claims C3, C4, C5 -/

/-- C3: in stage 6, whenever the full byte comparison of source and a
destination reports inequality despite the matching digests, the run is
fatal (the `assert False` on line 530 raises an `AssertionError`): no
DedupEvent is produced for the partition, and the destinations processed
are exactly those before the first failing comparison — the pipeline never
silently continues to clone or to process the remaining destinations of
that group. -/
theorem c3_digest_collision_fatal (bytesEq cloneOk : FileDesc → Bool)
    (sfile : FileDesc) (dfiles : List FileDesc)
    (h : ∃ d ∈ dfiles, bytesEq d = false) :
    (stage6_fileset bytesEq cloneOk sfile dfiles).fatal = true
    ∧ (stage6_fileset bytesEq cloneOk sfile dfiles).event = none
    ∧ ((stage6_fileset bytesEq cloneOk sfile dfiles).processed.map (fun p => p.1)
        = dfiles.takeWhile bytesEq) := by
  have hf := stage6_dests_fail bytesEq cloneOk dfiles h
  rw [stage6_fileset_fail bytesEq cloneOk sfile dfiles h]
  exact ⟨rfl, rfl, hf.2⟩

theorem c3_digest_collision_fatal_witness :
    (stage6_fileset (fun d => d.digest == 1) (fun _ => true)
      ⟨1, 1, 1, 1, 1, 1, 1, 9, false, 1⟩
      [⟨2, 2, 1, 1, 1, 2, 1, 9, false, 7⟩]).fatal = true :=
  (c3_digest_collision_fatal (fun d => d.digest == 1) (fun _ => true)
    ⟨1, 1, 1, 1, 1, 1, 1, 9, false, 1⟩
    [⟨2, 2, 1, 1, 1, 2, 1, 9, false, 7⟩]
    ⟨⟨2, 2, 1, 1, 1, 2, 1, 9, false, 7⟩, by decide, by decide⟩).1

/-- C4: for a digest partition `sfile :: dfiles`, a DedupEvent is appended
and committed exactly when every destination passed the byte comparison and
at least one destination's `clone_data` returned success; when one is
appended its participating inodes are exactly the source plus the
destinations whose clone succeeded, so a destination whose extents were
already shared (clone returned false) is recorded in no event. -/
theorem c4_dedup_event_iff (bytesEq cloneOk : FileDesc → Bool)
    (sfile : FileDesc) (dfiles : List FileDesc) :
    ((stage6_fileset bytesEq cloneOk sfile dfiles).event.isSome
      ↔ ((∀ d ∈ dfiles, bytesEq d = true) ∧ ∃ d ∈ dfiles, cloneOk d = true))
    ∧ ((stage6_fileset bytesEq cloneOk sfile dfiles).event = none
        ∨ (stage6_fileset bytesEq cloneOk sfile dfiles).event
            = some (sfile :: dfiles.filter (fun d => cloneOk d)))
    ∧ (∀ d ∈ dfiles, cloneOk d = false → d ≠ sfile →
        ∀ l, (stage6_fileset bytesEq cloneOk sfile dfiles).event = some l →
          d ∉ l) := by
  by_cases hall : ∀ d ∈ dfiles, bytesEq d = true
  · rw [stage6_fileset_allpass bytesEq cloneOk sfile dfiles hall]
    by_cases hne : (dfiles.filter (fun d => cloneOk d)).isEmpty
    · rw [if_pos hne]
      refine ⟨?_, Or.inl rfl, ?_⟩
      · constructor
        · intro hfalse
          have hfalse' : (false : Bool) = true := hfalse
          cases hfalse'
        · rintro ⟨-, d, hdm, hdc⟩
          have hnil : dfiles.filter (fun d => cloneOk d) = [] :=
            List.isEmpty_iff.mp hne
          have : d ∈ dfiles.filter (fun d => cloneOk d) :=
            List.mem_filter.mpr ⟨hdm, hdc⟩
          rw [hnil] at this
          cases this
      · intro d _ _ _ l hl
        exact absurd (show (none : Option (List FileDesc)) = some l from hl)
          (by simp)
    · rw [if_neg hne]
      refine ⟨?_, Or.inr rfl, ?_⟩
      · constructor
        · intro _
          refine ⟨hall, ?_⟩
          have hnn : dfiles.filter (fun d => cloneOk d) ≠ [] := by
            intro h0
            exact hne (by simp [h0])
          rcases List.exists_mem_of_ne_nil _ hnn with ⟨d, hd'⟩
          exact ⟨d, (List.mem_filter.mp hd').1, (List.mem_filter.mp hd').2⟩
        · intro _; rfl
      · intro d hdm hdc hdne l hl
        have hl' : some (sfile :: dfiles.filter (fun d => cloneOk d)) = some l := hl
        have : l = sfile :: dfiles.filter (fun d => cloneOk d) :=
          (Option.some.inj hl').symm
        subst this
        intro hmem
        rcases List.mem_cons.mp hmem with rfl | hmem'
        · exact hdne rfl
        · have hc := (List.mem_filter.mp hmem').2
          rw [hdc] at hc
          cases hc
  · have hex := not_all_bytesEq bytesEq dfiles hall
    rw [stage6_fileset_fail bytesEq cloneOk sfile dfiles hex]
    refine ⟨?_, Or.inl rfl, ?_⟩
    · constructor
      · intro hfalse
        have hfalse' : (false : Bool) = true := hfalse
        cases hfalse'
      · rintro ⟨h1, -⟩
        exact absurd h1 hall
    · intro d _ _ _ l hl
      exact absurd (show (none : Option (List FileDesc)) = some l from hl)
        (by simp)

theorem c4_dedup_event_iff_witness :
    (stage6_fileset (fun _ => true) (fun d => d.fd == 2)
      ⟨1, 1, 1, 1, 1, 1, 1, 9, false, 5⟩
      [⟨2, 2, 1, 1, 1, 2, 1, 9, false, 5⟩, ⟨3, 3, 1, 1, 1, 3, 1, 9, false, 5⟩]).event
      = some [⟨1, 1, 1, 1, 1, 1, 1, 9, false, 5⟩,
              ⟨2, 2, 1, 1, 1, 2, 1, 9, false, 5⟩] := by
  have h := (c4_dedup_event_iff (fun _ => true) (fun d => d.fd == 2)
    ⟨1, 1, 1, 1, 1, 1, 1, 9, false, 5⟩
    [⟨2, 2, 1, 1, 1, 2, 1, 9, false, 5⟩, ⟨3, 3, 1, 1, 1, 3, 1, 9, false, 5⟩]).2.1
  rcases h with h | h
  · exact absurd h (by decide)
  · rw [h]; decide

/-- C5: in stage 5, a descriptor not flagged write-busy is excluded after
hashing when its `fstat` identity or its byte count disagrees with the
Catalog record: a changed inode number or device number means the inode is
re-flagged (skip-list append) and kept out of the digest partition; a byte
count differing from the recorded size deletes the Catalog row when the new
size is below the volume's cutoff and re-flags the inode otherwise; and in
every such case the descriptor reaches no digest partition and hence
appears in no DedupEvent produced this pass. -/
theorem c5_identity_size_recheck (size : Nat) (d : FileDesc)
    (files : List FileDesc) (bytesEq cloneOk : FileDesc → Bool)
    (hw : d.in_write_use = false) :
    (d.st_ino ≠ d.ino → stage5_outcome size d = .skip)
    ∧ (d.st_ino = d.ino → d.st_dev ≠ d.vol_st_dev →
        stage5_outcome size d = .skip)
    ∧ (d.st_ino = d.ino → d.st_dev = d.vol_st_dev → d.bytes_read ≠ size →
        stage5_outcome size d
          = (if d.bytes_read < d.vol_size_cutoff then .delete else .skip))
    ∧ (stage5_outcome size d ≠ .keep →
        d ∉ stage5_kept size files
        ∧ ∀ ev ∈ stage6_events bytesEq cloneOk size files, d ∉ ev) := by
  refine ⟨?_, ?_, ?_, ?_⟩
  · intro h; simp [stage5_outcome, hw, h]
  · intro h1 h2; simp [stage5_outcome, hw, h1, h2]
  · intro h1 h2 h3; simp [stage5_outcome, hw, h1, h2, h3]
  · intro hnk
    have hmem : d ∉ stage5_kept size files := by
      intro hmem
      have hk := (List.mem_filter.mp hmem).2
      simp only [beq_iff_eq] at hk
      exact hnk hk
    refine ⟨hmem, fun ev hev hdev => ?_⟩
    exact hmem (stage6_events_subset_kept bytesEq cloneOk size files ev hev d hdev)

theorem c5_identity_size_recheck_witness :
    stage5_outcome 9 ⟨1, 1, 1, 1, 1, 2, 1, 9, false, 5⟩ = .skip :=
  (c5_identity_size_recheck 9 ⟨1, 1, 1, 1, 1, 2, 1, 9, false, 5⟩ [] (fun _ => true)
    (fun _ => true) (by decide)).1 (by decide)

/-! ## Helper lemmas for the windowed query -/

lemma insertDesc_mem (s : Nat) :
    ∀ (l : List Nat) (x : Nat), x ∈ insertDesc s l → x = s ∨ x ∈ l := by
  intro l
  induction l with
  | nil =>
    intro x hx
    simp only [insertDesc, List.mem_singleton] at hx
    exact Or.inl hx
  | cons t ts ih =>
    intro x hx
    by_cases h1 : t < s
    · simp only [insertDesc, if_pos h1] at hx
      rcases List.mem_cons.mp hx with rfl | hx'
      · exact Or.inl rfl
      · exact Or.inr hx'
    · by_cases h2 : s = t
      · simp only [insertDesc, if_neg h1, if_pos h2] at hx
        exact Or.inr hx
      · simp only [insertDesc, if_neg h1, if_neg h2] at hx
        rcases List.mem_cons.mp hx with rfl | hx'
        · exact Or.inr (List.mem_cons_self _ _)
        · rcases ih x hx' with h | h
          · exact Or.inl h
          · exact Or.inr (List.mem_cons_of_mem _ h)

lemma insertDesc_pairwise (s : Nat) :
    ∀ l : List Nat, l.Pairwise (· > ·) → (insertDesc s l).Pairwise (· > ·) := by
  intro l
  induction l with
  | nil => intro _; simp [insertDesc]
  | cons t ts ih =>
    intro hpw
    have htgt := (List.pairwise_cons.mp hpw).1
    have hts := (List.pairwise_cons.mp hpw).2
    by_cases h1 : t < s
    · simp only [insertDesc, if_pos h1]
      refine List.pairwise_cons.mpr ⟨?_, hpw⟩
      intro y hy
      rcases List.mem_cons.mp hy with rfl | hy'
      · exact h1
      · exact lt_trans (htgt y hy') h1
    · by_cases h2 : s = t
      · simp only [insertDesc, if_neg h1, if_pos h2]
        exact hpw
      · simp only [insertDesc, if_neg h1, if_neg h2]
        refine List.pairwise_cons.mpr ⟨?_, ih hts⟩
        intro y hy
        rcases insertDesc_mem s ts y hy with rfl | hy'
        · omega
        · exact htgt y hy'

lemma sortDescDedup_pairwise (l : List Nat) :
    (sortDescDedup l).Pairwise (· > ·) := by
  induction l with
  | nil => simp [sortDescDedup]
  | cons a l ih =>
    have he : sortDescDedup (a :: l) = insertDesc a (sortDescDedup l) := rfl
    rw [he]
    exact insertDesc_pairwise a (sortDescDedup l) ih

lemma windowQuery_pairwise (sel : Nat → Bool) (cat : List INode)
    (window_start : Int) (window_size : Nat) :
    (windowQuery sel cat window_start window_size).Pairwise (· > ·) := by
  have h1 : (eligSizes sel cat).Pairwise (· > ·) :=
    (sortDescDedup_pairwise _).sublist (List.filter_sublist _)
  exact (h1.sublist (List.filter_sublist _)).sublist (List.take_sublist _ _)

lemma windowQuery_le (sel : Nat → Bool) (cat : List INode)
    (window_start : Int) (window_size : Nat) :
    ∀ s ∈ windowQuery sel cat window_start window_size,
      (s : Int) ≤ window_start := by
  intro s hs
  have hs' := List.mem_of_mem_take hs
  exact of_decide_eq_true (List.mem_filter.mp hs').2

lemma windowYield_sizes (sel : Nat → Bool) (cat : List INode) (q : List Nat) :
    (windowYield sel cat q).map (fun c => c.1)
      = q.filter (fun s => !(groupFor sel cat s).isEmpty) := by
  unfold windowYield
  generalize q.filter (fun s => !(groupFor sel cat s).isEmpty) = l
  induction l with
  | nil => rfl
  | cons a l ih =>
    simp only [List.map_cons, List.cons.injEq]
    exact ⟨trivial, ih⟩

lemma lastSize_mem : ∀ (l : List Nat) (s0 : Nat), lastSize s0 l ∈ s0 :: l := by
  intro l
  induction l with
  | nil => intro s0; exact List.mem_singleton.mpr rfl
  | cons s1 rest ih =>
    intro s0
    have he : lastSize s0 (s1 :: rest) = lastSize s1 rest := rfl
    rw [he]
    exact List.mem_cons_of_mem s0 (ih s1)

lemma pairwise_lastSize_le :
    ∀ (l : List Nat) (s0 : Nat), (s0 :: l).Pairwise (· > ·) →
      ∀ x ∈ s0 :: l, lastSize s0 l ≤ x := by
  intro l
  induction l with
  | nil =>
    intro s0 _ x hx
    rcases List.mem_cons.mp hx with rfl | hx'
    · exact le_refl x
    · cases hx'
  | cons s1 rest ih =>
    intro s0 hpw x hx
    have hgt := (List.pairwise_cons.mp hpw).1
    have hrest := (List.pairwise_cons.mp hpw).2
    have hls : lastSize s0 (s1 :: rest) = lastSize s1 rest := rfl
    rw [hls]
    rcases List.mem_cons.mp hx with rfl | hx'
    · exact le_of_lt (hgt _ (lastSize_mem rest s1))
    · exact ih s1 hrest x hx'

lemma passLoop_sizes_le (sel : Nat → Bool) (window_size : Nat)
    (consumer : List (Nat × Nat × List INode) → List (Nat × Nat)) :
    ∀ (fuel : Nat) (cat : List INode) (window_start : Int),
      ∀ c ∈ passLoop sel window_size consumer fuel cat window_start,
        (c.1 : Int) ≤ window_start := by
  intro fuel
  induction fuel with
  | zero => intro cat ws c hc; cases hc
  | succ n ih =>
    intro cat ws c hc
    simp only [passLoop] at hc
    cases hq : windowQuery sel cat ws window_size with
    | nil => rw [hq] at hc; cases hc
    | cons s0 srest =>
      rw [hq] at hc
      replace hc : c ∈ windowYield sel cat (s0 :: srest)
          ++ passLoop sel window_size consumer n
              (clear_updates sel (consumer (windowYield sel cat (s0 :: srest)))
                (s0 : Int) ((lastSize s0 srest : Nat) : Int) cat)
              (((lastSize s0 srest : Nat) : Int) - 1) := hc
      have hql : ∀ s ∈ s0 :: srest, (s : Int) ≤ ws := by
        intro s hs
        exact windowQuery_le sel cat ws window_size s (hq ▸ hs)
      rcases List.mem_append.mp hc with hcg | hcr
      · have : c.1 ∈ (windowYield sel cat (s0 :: srest)).map (fun c => c.1) :=
          List.mem_map.mpr ⟨c, hcg, rfl⟩
        rw [windowYield_sizes] at this
        exact hql c.1 (List.mem_filter.mp this).1
      · have h1 := ih _ _ c hcr
        have h2 : ((lastSize s0 srest : Nat) : Int) ≤ ws :=
          hql _ (lastSize_mem srest s0)
        omega

/-! ## Theorems for claims C1, C8, C9 -/

/-- C1: the claim says `clear_updates(window_start, window_end)` clears
`has_updates` exactly for the selected inodes with
`window_end <= size <= window_start`.  The source's chained comparison
(line 312) drops the `window_start` bound, so the terminal
`clear_updates(window_start, 0)` call of a pass (line 287) also clears a
selected inode of size 20 under `window_start = 10`, which the claimed
range `[0, 10]` excludes: the code predicate accepts (and the UPDATE
clears) a size outside the claimed range. -/
theorem c1_clear_updates_range_eval :
    clear_updates_code_pred 10 0 20 = true
    ∧ clear_updates_spec_pred 10 0 20 = false
    ∧ clear_updates (fun v => v == 1) [] 10 0 [⟨1, 5, 20, true⟩]
        = [⟨1, 5, 20, false⟩] := by
  decide

/-- C8: trace of a complete pass over a two-inode catalog (one eligible
size group, then an empty window).  The pass ends via the `return` on line
288, so the trace contains neither `PRAGMA synchronous=FULL` nor the
checkpointer close — lines 302-305 are after a `while True:` whose only
exit is that `return`, and are never executed: the synchronous mode is NOT
restored before the terminal commit and the checkpointer is NOT closed,
contrary to the claim. -/
theorem c8_restore_unreachable :
    IterEvent.pragmaSynchronousFull
        ∉ iterTrace (fun _ => true) 200 (fun _ => []) 2
            [⟨1, 1, 9, true⟩, ⟨1, 2, 9, true⟩] 9
    ∧ IterEvent.checkpointerClose
        ∉ iterTrace (fun _ => true) 200 (fun _ => []) 2
            [⟨1, 1, 9, true⟩, ⟨1, 2, 9, true⟩] 9
    ∧ iterTrace (fun _ => true) 200 (fun _ => []) 2
        [⟨1, 1, 9, true⟩, ⟨1, 2, 9, true⟩] 9
      = [.pragmaSynchronousNormal, .pragmaWalAutocheckpointOff,
         .yieldGroup 9, .clearUpd 9 9, .clearUpd 8 0] := by
  decide

/-- C9: over any pass (any selected volume set, window size, skip-list
behaviour of the consumer, starting catalog and starting window bound), the
sequence of sizes of the `(size, inode_count, inodes)` triples yielded by
the `WindowedQuery.__iter__` loop is strictly decreasing — both inside one
window (the window query is ordered descending over distinct sizes) and
across consecutive windows (the next window is bounded by
`window_end - 1`). -/
theorem c9_sizes_strictly_decreasing (sel : Nat → Bool) (window_size : Nat)
    (consumer : List (Nat × Nat × List INode) → List (Nat × Nat))
    (fuel : Nat) (cat : List INode) (window_start : Int) :
    ((passLoop sel window_size consumer fuel cat window_start).map
      (fun c => c.1)).Pairwise (· > ·) := by
  induction fuel generalizing cat window_start with
  | zero => simp [passLoop]
  | succ n ih =>
    simp only [passLoop]
    cases hq : windowQuery sel cat window_start window_size with
    | nil => simp
    | cons s0 srest =>
      have hqpw : (s0 :: srest).Pairwise (· > ·) := by
        rw [← hq]; exact windowQuery_pairwise sel cat window_start window_size
      rw [List.map_append, List.pairwise_append]
      refine ⟨?_, ih _ _, ?_⟩
      · rw [windowYield_sizes]
        exact hqpw.sublist (List.filter_sublist _)
      · intro x hx y hy
        rw [windowYield_sizes] at hx
        have hxq : x ∈ s0 :: srest := (List.mem_filter.mp hx).1
        have hxge : lastSize s0 srest ≤ x :=
          pairwise_lastSize_le srest s0 hqpw x hxq
        rcases List.mem_map.mp hy with ⟨c, hcr, rfl⟩
        have hyle := passLoop_sizes_le sel window_size consumer n _ _ c hcr
        omega

end Bedup
